import Mathlib

/-!
A Lean model of the `jsweb` micro-framework (routing, request and response
modules), embedded shallowly from the Python sources, together with theorems
about its behaviour.

Conventions of the embedding:
* Python strings are `String` / `List Char`; byte strings are `List Nat`.
* Python `re` patterns produced by `Route._compile_path` use only literal
  characters and the character-class atoms `[^/]+`, `\d+` and `.+?`, anchored
  by `^ ... $`.  Matching of such a pattern is implemented directly:
  greedy atoms try the longest feasible run first, the lazy atom `.+?` tries
  the shortest first, and the `$` anchor accepts either the end of the string
  or the position just before a single trailing newline (Python `re` `$`
  semantics for `re.match`).
* Fallible Python code (raising exceptions) is modelled with `Except`.
* Recursions that consume at least one character per step are implemented
  with an explicit step budget equal to the length of the scanned list, which
  is always sufficient; this keeps every definition a computable `def` that
  the kernel can evaluate.
-/

/-- Python `\w` (ASCII word character, as used in the route patterns). -/
def wordChar (c : Char) : Bool := c.isAlphanum || c = '_'

/-- Python `int(s)` on a string of ASCII digits (the only strings the `int`
converter ever receives, since its regex part is `\d+`). -/
def digitsToNat (cs : List Char) : Nat :=
  cs.foldl (fun a c => 10 * a + (c.toNat - 48)) 0

/-- A decimal digit character. -/
def digitChar (d : Nat) : Char := Char.ofNat (48 + d % 10)

/-- Python `str(n)` for a natural number, with an explicit step budget. -/
def natReprAux : Nat → Nat → List Char
  | 0, _ => []
  | fuel + 1, n =>
    if n < 10 then [digitChar n]
    else natReprAux fuel (n / 10) ++ [digitChar (n % 10)]

/-- Python `str(n)` for a natural number. -/
def natReprL (n : Nat) : List Char := natReprAux (n + 1) n

/-- Python `str(n)` for an integer. -/
def intReprL (n : Int) : List Char :=
  if n < 0 then '-' :: natReprL n.natAbs else natReprL n.natAbs

/-- Values produced by the route parameter converters: `str` (and `path`,
and the fallback for unknown type names) yield strings, `int` yields
integers. -/
inductive Value where
  | str (s : String)
  | int (n : Nat)
deriving DecidableEq, Repr

/-- Which converter function a placeholder uses. -/
inductive ConvKind where
  | asStr
  | asInt
deriving DecidableEq, Repr

/-- Applying a converter to the text captured by a placeholder. -/
def applyConv : ConvKind → List Char → Value
  | .asStr, cs => .str (String.mk cs)
  | .asInt, cs => .int (digitsToNat cs)

/-- The regex atom generated for a placeholder: `[^/]+` (greedy),
`\d+` (greedy) or `.+?` (lazy; `.` does not match a newline). -/
inductive RClass where
  | nonSlashPlus
  | digitPlus
  | anyLazyPlus
deriving DecidableEq, Repr

/-- The character class of a regex atom. -/
def RClass.pred : RClass → Char → Bool
  | .nonSlashPlus, c => c ≠ '/'
  | .digitPlus, c => c.isDigit
  | .anyLazyPlus, c => c ≠ '\n'

/-- Whether the atom is lazy (`.+?`) rather than greedy. -/
def RClass.lazyRep : RClass → Bool
  | .anyLazyPlus => true
  | _ => false

/-- The `type_converters` table of `Route._compile_path`, including the
`.get(type_name, type_converters["str"] )` fallback for unknown type
names. -/
def typeConverters (ty : String) : ConvKind × RClass :=
  if ty = "str" then (.asStr, .nonSlashPlus)
  else if ty = "int" then (.asInt, .digitPlus)
  else if ty = "path" then (.asStr, .anyLazyPlus)
  else (.asStr, .nonSlashPlus)

/-- A token of a compiled route pattern: a literal character, or a
placeholder `<type:name>`. -/
inductive PTok where
  | lit (c : Char)
  | param (ty nm : String)
deriving DecidableEq, Repr

/-- The longest prefix of `cs` whose characters all satisfy `p`
(the maximal text a greedy `X+` atom can take). -/
def runLen (p : Char → Bool) : List Char → Nat
  | [] => 0
  | c :: cs => if p c then runLen p cs + 1 else 0

/-- The list `[n, n-1, ..., 1]`: candidate lengths in greedy order. -/
def descLens : Nat → List Nat
  | 0 => []
  | n + 1 => (n + 1) :: descLens n

/-- Candidate capture lengths for an atom on input `cs`, in the order the
regex engine tries them (longest first for greedy atoms, shortest first
for the lazy one). -/
def lensFor (rc : RClass) (cs : List Char) : List Nat :=
  if rc.lazyRep then (descLens (runLen rc.pred cs)).reverse
  else descLens (runLen rc.pred cs)

/-- Matching of a compiled pattern (token list) against a path, including
conversion of the captured groups.  The empty-token terminal case embeds
the `$` anchor of the compiled regex: it accepts the end of the string or
a position just before a single trailing newline.  The `ValueError` branch
of `Route.match` is not modelled because the converters of the table are
total on the texts their regex parts accept. -/
def matchToks : List PTok → List Char → Option (List (String × Value))
  | [], cs => if cs = [] ∨ cs = ['\n'] then some [] else none
  | .lit c :: rest, cs =>
    match cs with
    | [] => none
    | d :: ds => if d = c then matchToks rest ds else none
  | .param ty nm :: rest, cs =>
    (lensFor (typeConverters ty).2 cs).findSome? fun l =>
      (matchToks rest (cs.drop l)).map fun ps =>
        (nm, applyConv (typeConverters ty).1 (cs.take l)) :: ps

/-- Reads `word ":" word ">"` after an opening `<`, as the pattern
`<(\w+):(\w+)>` of `Route._compile_path` does.  Returns the type name, the
parameter name and the rest of the input. -/
def scanWord : List Char → List Char × List Char
  | [] => ([], [])
  | c :: cs =>
    if wordChar c then
      let p := scanWord cs
      (c :: p.1, p.2)
    else ([], c :: cs)

/-- Parses one `<type:name>` placeholder body (after the `<`). -/
def parsePlaceholder (cs : List Char) : Option (String × String × List Char) :=
  let p1 := scanWord cs
  if p1.1 = [] then none
  else
    match p1.2 with
    | ':' :: r2 =>
      let p2 := scanWord r2
      if p2.1 = [] then none
      else
        match p2.2 with
        | '>' :: r4 => some (String.mk p1.1, String.mk p2.1, r4)
        | _ => none
    | _ => none

/-- Tokenizer body; every step consumes at least one character, so a step
budget of the input length is always sufficient. -/
def tokenizeAux : Nat → List Char → List PTok
  | 0, _ => []
  | _ + 1, [] => []
  | fuel + 1, c :: rest =>
    if c = '<' then
      match parsePlaceholder rest with
      | some (ty, nm, r) => .param ty nm :: tokenizeAux fuel r
      | none => .lit '<' :: tokenizeAux fuel rest
    else .lit c :: tokenizeAux fuel rest

/-- Model of `Route._compile_path`: splits the path into literal characters and
`<type:name>` placeholders (text not of that shape stays literal). -/
def tokenize (cs : List Char) : List PTok := tokenizeAux cs.length cs

/-- Errors raised by `Router.resolve`. -/
inductive ResolveErr where
  | notFound
  | methodNotAllowed
deriving DecidableEq, Repr

/-- A registered route: path pattern, handler (modelled by an opaque
numeric identity), allowed methods and endpoint name. -/
structure Route where
  path : String
  handler : Nat
  methods : List String
  endpoint : String
deriving DecidableEq, Repr

/-- The compiled pattern of a route. -/
def Route.toks (r : Route) : List PTok := tokenize r.path.data

/-- Model of `Route.match`: matches a request path against the compiled pattern and
returns the converted parameters. -/
def Route.matchPath (r : Route) (p : String) : Option (List (String × Value)) :=
  matchToks r.toks p.data

/-- The `param_names` extracted at compilation, in order of appearance. -/
def Route.param_names (r : Route) : List String :=
  r.toks.filterMap fun t =>
    match t with
    | .param _ nm => some nm
    | .lit _ => none

/-- The router: the registration-ordered route list and the
endpoint-to-route table used by `url_for`. -/
structure Router where
  routes : List Route
  endpoints : List (String × Route)
deriving Repr

/-- Model of `Router.resolve` over the route list: first match wins; a path match
with a disallowed method fails immediately with `MethodNotAllowed`; no
path match at all fails with `NotFound`. -/
def resolveList (path method : String) : List Route → Except ResolveErr (Nat × List (String × Value))
  | [] => .error .notFound
  | r :: rest =>
    match r.matchPath path with
    | some ps =>
      if method ∈ r.methods then .ok (r.handler, ps)
      else .error .methodNotAllowed
    | none => resolveList path method rest

/-- Model of `Router.resolve`. -/
def Router.resolve (rtr : Router) (path method : String) :
    Except ResolveErr (Nat × List (String × Value)) :=
  resolveList path method rtr.routes

/-- Error raised by `Router.add_route` on a duplicate endpoint. -/
inductive AddRouteErr where
  | duplicateEndpoint
deriving DecidableEq, Repr

/-- Model of `Router.add_route`: methods default to `["GET"]`; a route is appended
to the route list and recorded under its endpoint name, which must be
fresh. -/
def Router.add_route (rtr : Router) (path : String) (handler : Nat)
    (methods : Option (List String)) (endpoint : String) :
    Except AddRouteErr Router :=
  let ms := methods.getD ["GET"]
  if (List.lookup endpoint rtr.endpoints).isSome then .error .duplicateEndpoint
  else
    let r : Route := ⟨path, handler, ms, endpoint⟩
    .ok ⟨rtr.routes ++ [r], rtr.endpoints ++ [(endpoint, r)]⟩

/-- Two overlapping literal routes used as concrete instances. -/
def rA : Route := ⟨"/a", 1, ["GET"], "e1"⟩

/-- Second route with the same pattern as `rA`. -/
def rB : Route := ⟨"/a", 2, ["GET", "POST"], "e2"⟩

/-- A router holding `rA` then `rB`. -/
def rtrAB : Router := ⟨[rA, rB], [("e1", rA), ("e2", rB)]⟩

/-- The route `/items/<int:id>` of the specification examples. -/
def item_detail : Route := ⟨"/items/<int:id>", 10, ["GET"], "item_detail"⟩

/-- A router holding only `item_detail`. -/
def itemsRouter : Router := ⟨[item_detail], [("item_detail", item_detail)]⟩

/-- A route with an unknown placeholder type name. -/
def uuid_route : Route := ⟨"/items/<uuid:id>", 11, ["GET"], "uuid_item"⟩

/-! ### `Router.url_for` (reverse routing) -/

/-- Errors raised by `Router.url_for` (both are `ValueError` in the
source; they are distinguished here by their message). -/
inductive UrlForErr where
  | unknownEndpoint
  | missingParam
deriving DecidableEq, Repr

/-- Python `str(value)` as applied by `url_for` to a parameter value. -/
def strOfValue : Value → String
  | .str s => s
  | .int n => String.mk (natReprL n)

/-- After an opening `<`, tries to read `\w+ ":" name ">"`: the shape
replaced by `re.sub(r"<(\w+):" + name + ">", str(value), path)`. -/
def parseSubAt (name : List Char) (cs : List Char) : Option (List Char) :=
  let p1 := scanWord cs
  if p1.1 = [] then none
  else
    match p1.2 with
    | ':' :: r2 =>
      if name.isPrefixOf r2 then
        match r2.drop name.length with
        | '>' :: r4 => some r4
        | _ => none
      else none
    | _ => none

/-- One `re.sub(r"<(\w+):name>", v, path)` pass (the replacement text is
inserted literally; the values the framework substitutes contain no
backslash escapes).  Every step consumes at least one character, so a
step budget of the input length suffices. -/
def subParamAux (name v : List Char) : Nat → List Char → List Char
  | 0, cs => cs
  | _ + 1, [] => []
  | fuel + 1, c :: rest =>
    if c = '<' then
      match parseSubAt name rest with
      | some r => v ++ subParamAux name v fuel r
      | none => '<' :: subParamAux name v fuel rest
    else c :: subParamAux name v fuel rest

/-- Python `str.replace(needle, v)`: left-to-right, non-overlapping. -/
def strRepAux (needle v : List Char) : Nat → List Char → List Char
  | 0, cs => cs
  | _ + 1, [] => []
  | fuel + 1, c :: rest =>
    if needle.isPrefixOf (c :: rest) then
      v ++ strRepAux needle v fuel ((c :: rest).drop needle.length)
    else c :: strRepAux needle v fuel rest

/-- The first loop of `url_for`: every compiled parameter name must have
a supplied value, which replaces each `<type:name>` occurrence. -/
def substLoop (params : List (String × Value)) :
    List String → List Char → Except UrlForErr (List Char)
  | [], path => .ok path
  | nm :: rest, path =>
    match List.lookup nm params with
    | none => .error .missingParam
    | some v =>
      substLoop params rest
        (subParamAux nm.data (strOfValue v).data path.length path)

/-- The second loop of `url_for`: plain replacement of `<key>` for every
supplied parameter. -/
def replaceLoop : List (String × Value) → List Char → List Char
  | [], path => path
  | (k, v) :: rest, path =>
    replaceLoop rest
      (strRepAux ('<' :: (k.data ++ ['>'])) (strOfValue v).data path.length path)

/-- Model of `Router.url_for`: fails on an unknown endpoint or a missing required
placeholder value, otherwise substitutes all values into the path
pattern. -/
def Router.url_for (rtr : Router) (endpoint : String)
    (params : List (String × Value)) : Except UrlForErr String :=
  match List.lookup endpoint rtr.endpoints with
  | none => .error .unknownEndpoint
  | some r =>
    match substLoop params r.param_names r.path.data with
    | .error e => .error e
    | .ok p => .ok (String.mk (replaceLoop params p))

/-- A route with a `str` placeholder, for reverse-routing instances. -/
def user_route : Route := ⟨"/u/<str:name>", 12, ["GET"], "user"⟩

/-- A router holding only `user_route`. -/
def userRouter : Router := ⟨[user_route], [("user", user_route)]⟩

/-! ### The response module -/

/-- The `HTTP_STATUS_CODES` table of `response.py`, verbatim. -/
def HTTP_STATUS_CODES : List (Nat × String) :=
  [(200, "OK"), (201, "Created"), (202, "Accepted"), (204, "No Content"),
    (301, "Moved Permanently"), (302, "Found"), (304, "Not Modified"),
    (307, "Temporary Redirect"), (308, "Permanent Redirect"),
    (400, "Bad Request"), (401, "Unauthorized"), (403, "Forbidden"),
    (404, "Not Found"), (405, "Method Not Allowed"), (409, "Conflict"),
    (422, "Unprocessable Entity"), (500, "Internal Server Error"),
    (501, "Not Implemented"), (502, "Bad Gateway"),
    (503, "Service Unavailable")]

/-- Python dict read (`d.get` / `d[k]`); keys are unique in a dict, so
the first hit is the value. -/
def dictGet? (hs : List (String × String)) (k : String) : Option String :=
  match hs with
  | [] => none
  | (k0, v0) :: rest => if k0 = k then some v0 else dictGet? rest k

/-- Python dict membership (`k in d`). -/
def dictContains (hs : List (String × String)) (k : String) : Bool :=
  (dictGet? hs k).isSome

/-- Python dict assignment (`d[k] = v`): update in place if the key is
present, otherwise append at the end (dict insertion order). -/
def dictSet (hs : List (String × String)) (k v : String) :
    List (String × String) :=
  match hs with
  | [] => [(k, v)]
  | (k0, v0) :: rest =>
    if k0 = k then (k, v) :: rest else (k0, v0) :: dictSet rest k v

/-- How many entries of an emitted header list carry the key `k`. -/
def countKey (hs : List (String × String)) (k : String) : Nat :=
  (hs.filter fun p => p.1 = k).length

/-- A `Response`: body text, integer status code, and the headers dict. -/
structure Response where
  body : String
  status_code : Nat
  headers : List (String × String)
deriving DecidableEq, Repr

/-- Model of `Response.__init__`: starts from the given headers and inserts the
content type (the explicit one if non-empty, else the class default)
unless a `content-type` key is already present. -/
def mkResponse (body : String) (status_code : Nat)
    (headers : List (String × String)) (content_type : Option String)
    (default_content_type : String) : Response :=
  let fct :=
    match content_type with
    | some s => if s = "" then default_content_type else s
    | none => default_content_type
  let h :=
    if dictContains headers "content-type" then headers
    else dictSet headers "content-type" fct
  ⟨body, status_code, h⟩

/-- The `http.response.start` ASGI message sent by `Response.__call__`:
an integer status and the emitted header list. -/
structure StartMessage where
  status : Nat
  headers : List (String × String)
deriving DecidableEq, Repr

/-- Model of `Response.__call__`: inserts `content-length` (the UTF-8 byte length
of the body) unless present, then emits the start message with the bare
integer status code, followed by the body bytes. -/
def responseCall (r : Response) : StartMessage × String :=
  let h :=
    if dictContains r.headers "content-length" then r.headers
    else dictSet r.headers "content-length"
      (String.mk (natReprL r.body.utf8ByteSize))
  (⟨r.status_code, h⟩, r.body)

/-- The `Set-Cookie` value built by `Response.set_cookie`, in source
order.  `expires` is modelled as the already-`strftime`-formatted date
string. -/
def cookieVal (key value : String) (max_age : Option Int)
    (expires : Option String) (path : Option String) (domain : Option String)
    (secure httponly : Bool) (samesite : Option String) : String :=
  key ++ "=" ++ value
    ++ (match max_age with
        | some m => "; Max-Age=" ++ String.mk (intReprL m)
        | none => "")
    ++ (match expires with
        | some e => "; Expires=" ++ e
        | none => "")
    ++ (match path with
        | some p => "; Path=" ++ p
        | none => "")
    ++ (match domain with
        | some d => "; Domain=" ++ d
        | none => "")
    ++ (match samesite with
        | some s => "; SameSite=" ++ s
        | none => "")
    ++ (if secure then "; Secure" else "")
    ++ (if httponly then "; HttpOnly" else "")

/-- Model of `Response.set_cookie`: appends the cookie string to an existing
`Set-Cookie` dict value with a newline, or creates the entry. -/
def Response.set_cookie (r : Response) (key value : String)
    (max_age : Option Int) (expires : Option String) (path : Option String)
    (domain : Option String) (secure httponly : Bool)
    (samesite : Option String) : Response :=
  let cv := cookieVal key value max_age expires path domain secure httponly samesite
  let hs :=
    match dictGet? r.headers "Set-Cookie" with
    | some old => dictSet r.headers "Set-Cookie" (old ++ "\n" ++ cv)
    | none => dictSet r.headers "Set-Cookie" cv
  { r with headers := hs }

/-- Substring containment (Python `needle in hay`). -/
def hasSub (needle : List Char) : List Char → Bool
  | [] => needle.isEmpty
  | c :: rest => needle.isPrefixOf (c :: rest) || hasSub needle rest

/-- Python `hay.rfind(needle)`: the largest index at which `needle`
starts, if any. -/
def lastFind (needle : List Char) : List Char → Option Nat
  | [] => if needle.isEmpty then some 0 else none
  | c :: rest =>
    match lastFind needle rest with
    | some j => some (j + 1)
    | none => if needle.isPrefixOf (c :: rest) then some 0 else none

/-- Model of the `HTMLResponse` body rewriting: when the lower-cased body
contains `</html>` and the startup-loaded script is non-empty, the
script tag is spliced in at the `rfind` position of `</head>` in the
lower-cased body (no position: body unchanged); otherwise the body is
unchanged. -/
def htmlTransform (script : String) (body : String) : String :=
  let lower := body.data.map Char.toLower
  if hasSub "</html>".data lower = true ∧ script ≠ "" then
    match lastFind "</head>".data lower with
    | some k =>
      String.mk (body.data.take k
        ++ ("<script>" ++ script ++ "</script>").data ++ body.data.drop k)
    | none => body
  else body

/-- Model of `HTMLResponse` serialization end to end: rewrite the body, then emit as
the base class does. -/
def htmlResponseCall (script : String) (r : Response) : StartMessage × String :=
  responseCall { r with body := htmlTransform script r.body }

/-! ### The request module -/

/-- The data of one ASGI `http.request` message: body bytes and the
`more_body` flag. -/
structure AMessage where
  bytes : List Nat
  more_body : Bool
deriving DecidableEq, Repr

/-- A request as seen by the model: the receive-channel messages and the
decoded headers dict (last occurrence of a key wins, as in the dict
comprehension of `_parse_headers`). -/
structure ARequest where
  messages : List AMessage
  headers : List (String × String)
deriving DecidableEq, Repr

/-- The chunks yielded by `Request.stream`: message bodies up to and
including the first message without `more_body`. -/
def streamChunks : List AMessage → List (List Nat)
  | [] => []
  | m :: rest => if m.more_body then m.bytes :: streamChunks rest else [m.bytes]

/-- The two `RuntimeError`s of the request body protocol. -/
inductive ReqErr where
  | streamReconsumed
  | bodyAfterStream
deriving DecidableEq, Repr

/-- A JSON value (result of `json.loads`). -/
inductive JVal where
  | null
  | bool (b : Bool)
  | num (n : Int)
  | str (s : String)
  | arr (xs : List JVal)
  | obj (fs : List (String × JVal))

/-- The mutable per-request state: `_body`, `_json` and
`_is_stream_consumed`. -/
structure RState where
  body_cache : Option (List Nat)
  json_cache : Option JVal
  is_stream_consumed : Bool

/-- The state of a freshly constructed `Request`. -/
def initState : RState := ⟨none, none, false⟩

/-- Model of `Request.stream`: single-pass; marks the stream consumed and yields
the chunks. -/
def streamOp (rq : ARequest) (st : RState) :
    Except ReqErr (List (List Nat) × RState) :=
  if st.is_stream_consumed then .error .streamReconsumed
  else .ok (streamChunks rq.messages, { st with is_stream_consumed := true })

/-- Model of `Request.body`: returns the cache when present; errors if the stream
was already consumed without caching; otherwise drains the stream and
caches the joined bytes. -/
def bodyOp (rq : ARequest) (st : RState) : Except ReqErr (List Nat × RState) :=
  match st.body_cache with
  | some b => .ok (b, st)
  | none =>
    if st.is_stream_consumed then .error .bodyAfterStream
    else
      match streamOp rq st with
      | .error e => .error e
      | .ok (chunks, st2) =>
        let b := chunks.flatten
        .ok (b, { st2 with body_cache := some b })

/-- Python `d.get(k, dflt)` over the decoded headers (last occurrence wins). -/
def headerGet (hs : List (String × String)) (k dflt : String) : String :=
  match dictGet? hs.reverse k with
  | some v => v
  | none => dflt

/-- Model of `Request.json`, parameterized by the `json.loads` parser, which
returns `none` where the library would raise a decode error.  A parse
failure or an empty body yields the empty object; a non-JSON content
type yields the empty object without touching the body; the result is
cached.  The `RuntimeError` of `body()` is not caught by the
`except (JSONDecodeError, ValueError)` clause and propagates. -/
def jsonOp (parse : List Nat → Option JVal) (rq : ARequest) (st : RState) :
    Except ReqErr (JVal × RState) :=
  match st.json_cache with
  | some j => .ok (j, st)
  | none =>
    let ct := headerGet rq.headers "content-type" ""
    if hasSub "application/json".data ct.data then
      match bodyOp rq st with
      | .error e => .error e
      | .ok (b, st2) =>
        let j :=
          if b = [] then JVal.obj []
          else
            match parse b with
            | some v => v
            | none => JVal.obj []
        .ok (j, { st2 with json_cache := some j })
    else .ok (JVal.obj [], { st with json_cache := some (JVal.obj []) })

/-- A concrete request delivering the bytes `hi` in one message. -/
def req0 : ARequest := ⟨[⟨[104, 105], false⟩], []⟩

/-- A concrete request with a JSON content type and a malformed body. -/
def reqJson : ARequest :=
  ⟨[⟨[123], false⟩], [("content-type", "application/json")]⟩

/-- A concrete request with a plain-text content type. -/
def reqPlain : ARequest := ⟨[⟨[104], false⟩], [("content-type", "text/plain")]⟩

/-- A base response without cookies. -/
def respBase : Response := mkResponse "" 200 [] none "text/plain"

/-! ## Resolution order (C1, C2) -/

/-- Routes that do not match the path are skipped by `resolve`. -/
theorem resolveList_skip (path method : String) (pre rest : List Route)
    (hpre : ∀ r ∈ pre, r.matchPath path = none) :
    resolveList path method (pre ++ rest) = resolveList path method rest := by
  induction pre with
  | nil => rfl
  | cons a as ih =>
    have ha : a.matchPath path = none := hpre a (by simp)
    simp only [List.cons_append, resolveList, ha]
    exact ih fun r hr => hpre r (by simp [hr])

/-- Resolution reports `NotFound` exactly when no route matches the path. -/
theorem resolveList_notFound_iff (path method : String) (l : List Route) :
    resolveList path method l = .error .notFound ↔
      ∀ r ∈ l, r.matchPath path = none := by
  induction l with
  | nil => simp [resolveList]
  | cons a as ih =>
    cases h : a.matchPath path with
    | none => simp [resolveList, h, ih]
    | some ps =>
      simp only [resolveList, h]
      constructor
      · intro hcontra
        by_cases hm : method ∈ a.methods <;> simp [hm] at hcontra
      · intro hall
        have := hall a (by simp)
        simp [h] at this

/-- C1: resolution iterates the routes in registration order and stops at
the first route whose matcher succeeds: if `r1` is registered before `r2`,
no route registered before `r1` matches, both `r1` and `r2` match the
path, and the method is allowed by `r1`, then `resolve` returns `r1`'s
handler together with `r1`'s extracted params. -/
theorem resolve_registration_order
    (rtr : Router) (path method : String)
    (pre mid post : List Route) (r1 r2 : Route)
    (ps1 ps2 : List (String × Value))
    (hroutes : rtr.routes = pre ++ r1 :: mid ++ r2 :: post)
    (hpre : ∀ r ∈ pre, r.matchPath path = none)
    (h1 : r1.matchPath path = some ps1)
    (h2 : r2.matchPath path = some ps2)
    (hm : method ∈ r1.methods) :
    rtr.resolve path method = .ok (r1.handler, ps1) := by
  unfold Router.resolve
  rw [hroutes]
  simp only [List.append_assoc, List.cons_append]
  rw [resolveList_skip path method pre (r1 :: (mid ++ r2 :: post)) hpre]
  simp [resolveList, h1, hm]

/-- Witness for C1: with both `rA` and `rB` matching `/a`, resolution
returns the earlier route's handler and params. -/
theorem resolve_registration_order_witness :
    rtrAB.resolve "/a" "GET" = .ok (1, []) := by
  have h := resolve_registration_order rtrAB "/a" "GET" [] [] [] rA rB [] []
    rfl (by simp) (by decide) (by decide) (by decide)
  exact h

/-- C2: a path match with a disallowed method fails with
`MethodNotAllowed` immediately at the first matching route, whatever
routes follow it; and `resolve` fails with `NotFound` exactly when no
registered route matches the path at all. -/
theorem resolve_error_conditions (rtr : Router) (path method : String) :
    (∀ pre post r ps, rtr.routes = pre ++ r :: post →
      (∀ q ∈ pre, q.matchPath path = none) →
      r.matchPath path = some ps → method ∉ r.methods →
      rtr.resolve path method = .error .methodNotAllowed)
    ∧ (rtr.resolve path method = .error .notFound ↔
        ∀ r ∈ rtr.routes, r.matchPath path = none) := by
  constructor
  · intro pre post r ps hroutes hpre hr hm
    unfold Router.resolve
    rw [hroutes, resolveList_skip path method pre (r :: post) hpre]
    simp [resolveList, hr, hm]
  · unfold Router.resolve
    exact resolveList_notFound_iff path method rtr.routes

/-- Witness for C2: a POST against a GET-only matching route (followed by
a route that allows POST on the same path) is `MethodNotAllowed`, and a
path no route matches is `NotFound`. -/
theorem resolve_error_conditions_witness :
    rtrAB.resolve "/a" "POST" = .error .methodNotAllowed ∧
      rtrAB.resolve "/nowhere" "GET" = .error .notFound := by
  constructor
  · exact (resolve_error_conditions rtrAB "/a" "POST").1 [] [rB] rA []
      rfl (by simp) (by decide) (by decide)
  · exact (resolve_error_conditions rtrAB "/nowhere" "GET").2.mpr (by decide)

/-! ## Characterizing greedy `X+` capture against the `$` anchor -/

/-- The greedy run never exceeds the input length. -/
theorem runLen_le (p : Char → Bool) (cs : List Char) : runLen p cs ≤ cs.length := by
  induction cs with
  | nil => simp [runLen]
  | cons c cs ih => by_cases h : p c <;> simp [runLen, h] <;> omega

/-- The greedy run covers the whole input exactly when every character
satisfies the class. -/
theorem runLen_eq_length_iff (p : Char → Bool) (cs : List Char) :
    runLen p cs = cs.length ↔ cs.all p = true := by
  induction cs with
  | nil => simp [runLen]
  | cons c cs ih =>
    by_cases h : p c
    · simp [runLen, h, ih]
    · simp [runLen, h]

/-- Any prefix shorter than the greedy run lies inside the class. -/
theorem all_take_of_le_runLen (p : Char → Bool) (cs : List Char) (l : Nat)
    (h : l ≤ runLen p cs) : (cs.take l).all p = true := by
  induction cs generalizing l with
  | nil => simp
  | cons c cs ih =>
    cases hpc : p c with
    | true =>
      cases l with
      | zero => simp
      | succ k =>
        simp [runLen, hpc] at h
        simp only [List.take_succ_cons, List.all_cons, hpc, Bool.true_and]
        exact ih k (by omega)
    | false =>
      simp [runLen, hpc] at h
      simp [h]

/-- The greedy run stops exactly at the first character outside the
class. -/
theorem runLen_stop (p : Char → Bool) (c : Char) (rest : List Char)
    (ds : List Char) (hall : ds.all p = true) (hc : p c = false) :
    runLen p (ds ++ c :: rest) = ds.length := by
  induction ds with
  | nil => simp [runLen, hc]
  | cons d ds ih =>
    simp only [List.all_cons, Bool.and_eq_true] at hall
    simp [runLen, hall.1, ih hall.2]

/-- Dropping all but the last element leaves the last element. -/
theorem drop_pred_singleton :
    ∀ (cs : List Char) (c : Char), cs.getLast? = some c →
      cs.drop (cs.length - 1) = [c]
  | [], c, h => by simp at h
  | [a], c, h => by
    simp only [List.getLast?_singleton, Option.some.injEq] at h
    simp [h]
  | a :: b :: cs, c, h => by
    have ih := drop_pred_singleton (b :: cs) c (by rwa [List.getLast?_cons_cons] at h)
    simpa using ih

/-- If dropping `l` characters leaves exactly `[c]`, then `c` is the last
character and `l` is the penultimate position. -/
theorem last_of_drop_singleton (cs : List Char) (l : Nat) (c : Char)
    (h : cs.drop l = [c]) : cs.getLast? = some c ∧ l = cs.length - 1 := by
  have hlen : cs.length - l = 1 := by
    have := List.length_drop l cs
    rw [h] at this
    simp at this
    omega
  refine ⟨?_, by omega⟩
  have hsplit := List.take_append_drop l cs
  rw [h] at hsplit
  rw [← hsplit, List.getLast?_append_of_ne_nil _ (by simp)]
  simp

/-- Membership in the greedy candidate list. -/
theorem mem_descLens (n l : Nat) : l ∈ descLens n ↔ 1 ≤ l ∧ l ≤ n := by
  induction n with
  | zero =>
    simp [descLens]
    omega
  | succ k ih =>
    simp only [descLens, List.mem_cons, ih]
    omega

/-- How a greedy atom immediately followed by the `$` anchor resolves:
the only successful capture lengths reach the end of the string or the
position just before a single trailing newline, and the greedy search
takes the largest of them. -/
theorem findSome_desc_end (cs : List Char) (g : Nat → List (String × Value))
    (r : Nat) (hr : r ≤ cs.length) :
    ((descLens r).findSome? fun l =>
        if cs.drop l = [] ∨ cs.drop l = ['\n'] then some (g l) else none) =
      if 1 ≤ r ∧ r = cs.length then some (g r)
      else if 1 ≤ r ∧ r = cs.length - 1 ∧ cs.getLast? = some '\n' then some (g r)
      else none := by
  by_cases h1 : 1 ≤ r ∧ r = cs.length
  · obtain ⟨r', rfl⟩ : ∃ r', r = r' + 1 := ⟨r - 1, by omega⟩
    have hdrop : cs.drop (r' + 1) = [] := by
      rw [List.drop_eq_nil_iff]
      omega
    simp only [descLens, List.findSome?_cons, hdrop]
    have hlen1 : 1 ≤ cs.length := by omega
    simp [h1, hlen1]
  · by_cases h2 : 1 ≤ r ∧ r = cs.length - 1 ∧ cs.getLast? = some '\n'
    · obtain ⟨hr1, hr2, hlast⟩ := h2
      obtain ⟨r', rfl⟩ : ∃ r', r = r' + 1 := ⟨r - 1, by omega⟩
      have hdrop : cs.drop (r' + 1) = ['\n'] := by
        rw [hr2]
        exact drop_pred_singleton cs '\n' hlast
      simp only [descLens, List.findSome?_cons, hdrop]
      have hge : 1 ≤ cs.length - 1 := by omega
      have hne2 : cs.length - 1 ≠ cs.length := by omega
      simp [hr2, hge, hne2, hlast]
    · rw [List.findSome?_eq_none_iff.mpr ?none, if_neg h1, if_neg h2]
      case none =>
        intro l hl
        rw [mem_descLens] at hl
        have hnil : ¬cs.drop l = [] := by
          intro hd
          rw [List.drop_eq_nil_iff] at hd
          exact h1 ⟨by omega, by omega⟩
        have hnl : ¬cs.drop l = ['\n'] := by
          intro hd
          obtain ⟨hlast, hll⟩ := last_of_drop_singleton cs l '\n' hd
          rcases Nat.lt_or_ge r cs.length with hlt | hge
          · exact h2 ⟨by omega, by omega, hlast⟩
          · exact h1 ⟨by omega, by omega⟩
        simp [hnil, hnl]

/-- The `int` placeholder as final pattern token: it captures a non-empty
all-digit tail converted by `int(...)`; the regex end anchor also accepts
a single trailing newline after the digits; everything else fails. -/
theorem matchToks_int (nm : String) (cs : List Char) :
    matchToks [.param "int" nm] cs =
      (if cs ≠ [] ∧ cs.all Char.isDigit then
        some [(nm, Value.int (digitsToNat cs))]
      else if cs.dropLast ≠ [] ∧ cs.dropLast.all Char.isDigit ∧
          cs.getLast? = some '\n' then
        some [(nm, Value.int (digitsToNat cs.dropLast))]
      else none) := by
  have hconv : typeConverters "int" = (.asInt, .digitPlus) := rfl
  have hpred : RClass.pred .digitPlus = Char.isDigit := rfl
  have hunfold : matchToks [.param "int" nm] cs =
      (descLens (runLen Char.isDigit cs)).findSome? fun l =>
        if cs.drop l = [] ∨ cs.drop l = ['\n'] then
          some [(nm, Value.int (digitsToNat (cs.take l)))]
        else none := by
    show (lensFor (typeConverters "int").2 cs).findSome?
        (fun l => (matchToks [] (cs.drop l)).map fun ps =>
          (nm, applyConv (typeConverters "int").1 (cs.take l)) :: ps) = _
    rw [hconv]
    show (lensFor .digitPlus cs).findSome? _ = _
    have hlens : lensFor .digitPlus cs = descLens (runLen Char.isDigit cs) := rfl
    rw [hlens]
    congr 1
    funext l
    show (if cs.drop l = [] ∨ cs.drop l = ['\n'] then some [] else none).map
        (fun ps => (nm, applyConv .asInt (cs.take l)) :: ps) = _
    by_cases h : cs.drop l = [] ∨ cs.drop l = ['\n'] <;>
      simp [h, applyConv]
  rw [hunfold,
    findSome_desc_end cs (fun l => [(nm, Value.int (digitsToNat (cs.take l)))])
      (runLen Char.isDigit cs) (runLen_le _ _)]
  by_cases hA : cs ≠ [] ∧ cs.all Char.isDigit
  · have h1 : 1 ≤ runLen Char.isDigit cs ∧ runLen Char.isDigit cs = cs.length := by
      have := (runLen_eq_length_iff Char.isDigit cs).mpr hA.2
      have hne : cs.length ≠ 0 := by
        simpa [List.length_eq_zero] using hA.1
      exact ⟨by omega, this⟩
    rw [if_pos h1, if_pos hA, h1.2, List.take_length]
  · have h1 : ¬(1 ≤ runLen Char.isDigit cs ∧ runLen Char.isDigit cs = cs.length) := by
      intro hc
      refine hA ⟨?_, (runLen_eq_length_iff Char.isDigit cs).mp hc.2⟩
      intro he
      rw [he] at hc
      simp [runLen] at hc
    rw [if_neg h1, if_neg hA]
    by_cases hB : cs.dropLast ≠ [] ∧ cs.dropLast.all Char.isDigit ∧
        cs.getLast? = some '\n'
    · obtain ⟨hne, hall, hlast⟩ := hB
      have hcne : cs ≠ [] := by
        intro he
        rw [he] at hlast
        simp at hlast
      have hlasteq : cs.getLast hcne = '\n' := by
        have h := List.getLast?_eq_getLast cs hcne
        rw [h] at hlast
        exact Option.some.inj hlast
      have hsplit : cs.dropLast ++ '\n' :: [] = cs := by
        have h := List.dropLast_append_getLast hcne
        rw [hlasteq] at h
        simpa using h
      have hr : runLen Char.isDigit cs = cs.dropLast.length := by
        conv_lhs => rw [← hsplit]
        exact runLen_stop Char.isDigit '\n' [] cs.dropLast hall rfl
      have hlen : cs.dropLast.length = cs.length - 1 := List.length_dropLast cs
      have hge1 : 1 ≤ cs.dropLast.length := by
        rcases Nat.eq_zero_or_pos cs.dropLast.length with h0 | hp
        · exact absurd (List.length_eq_zero.mp h0) hne
        · exact hp
      rw [if_pos ⟨by omega, by omega, hlast⟩, if_pos ⟨hne, hall, hlast⟩,
        hr, hlen, ← List.dropLast_eq_take]
    · have h2 : ¬(1 ≤ runLen Char.isDigit cs ∧
          runLen Char.isDigit cs = cs.length - 1 ∧ cs.getLast? = some '\n') := by
        intro hc
        obtain ⟨hc1, hc2, hc3⟩ := hc
        refine hB ⟨?_, ?_, hc3⟩
        · rw [List.dropLast_eq_take]
          intro he
          have hlt := congrArg List.length he
          simp only [List.length_take, List.length_nil] at hlt
          have hle := runLen_le Char.isDigit cs
          omega
        · rw [List.dropLast_eq_take]
          exact all_take_of_le_runLen Char.isDigit cs (cs.length - 1) (by omega)
      rw [if_neg h2, if_neg hB]

/-! ## The int placeholder (C3) and the unknown-type fallback (C10) -/

/-- A literal pattern character consumes one equal input character. -/
theorem matchToks_lit_cons (c : Char) (rest : List PTok) (cs : List Char) :
    matchToks (.lit c :: rest) (c :: cs) = matchToks rest cs := by
  simp [matchToks]

/-- The compiled pattern of `item_detail`. -/
theorem item_detail_toks : item_detail.toks =
    [.lit '/', .lit 'i', .lit 't', .lit 'e', .lit 'm', .lit 's', .lit '/',
      .param "int" "id"] := rfl

/-- Matching `/items/<...>` reduces to matching the placeholder against
the tail after the literal prefix. -/
theorem item_match_reduce (s : String) :
    item_detail.matchPath ("/items/" ++ s) =
      matchToks [.param "int" "id"] s.data := by
  show matchToks item_detail.toks ("/items/" ++ s).data = _
  rw [item_detail_toks, String.data_append,
    show ("/items/" : String).data = ['/', 'i', 't', 'e', 'm', 's', '/'] from rfl]
  simp only [List.cons_append, List.nil_append, matchToks_lit_cons]

/-- Counterexample to C3 as stated: the segment of `/items/4\n` is not
all digits, yet the route matches it with `id = 4`, because the `$`
anchor of the compiled pattern also accepts the position before a single
trailing newline. -/
theorem int_match_newline_counterexample :
    item_detail.matchPath "/items/4\n" = some [("id", Value.int 4)] ∧
      ("4\n".data.all Char.isDigit) = false := by decide

/-- C3 (amended): matching `/items/<int:id>` against `/items/` ++ s
yields the converted integer exactly when `s` is a non-empty digit
string, or a non-empty digit string followed by one trailing newline
(tolerated by the regex end anchor); every other segment is a non-match,
so a request such as `/items/abc` resolves to `NotFound` rather than
raising a conversion error. -/
theorem int_conversion_characterization (s : String) :
    item_detail.matchPath ("/items/" ++ s) =
      (if s.data ≠ [] ∧ s.data.all Char.isDigit then
        some [("id", Value.int (digitsToNat s.data))]
      else if s.data.dropLast ≠ [] ∧ s.data.dropLast.all Char.isDigit ∧
          s.data.getLast? = some '\n' then
        some [("id", Value.int (digitsToNat s.data.dropLast))]
      else none) ∧
    item_detail.matchPath "/items/42" = some [("id", Value.int 42)] ∧
    itemsRouter.resolve "/items/abc" "GET" = .error .notFound := by
  refine ⟨?_, by decide, rfl⟩
  rw [item_match_reduce, matchToks_int]

/-- C10: an unknown placeholder type name silently falls back to the
`str` behaviour: the converter table returns the `str` entry, matching
any pattern is unchanged if the unknown type is replaced by `str`, and
such a route registers and matches with the value kept as a string. -/
theorem unknown_type_fallback (ty : String)
    (h1 : ty ≠ "str") (h2 : ty ≠ "int") (h3 : ty ≠ "path") :
    typeConverters ty = typeConverters "str" ∧
      (∀ nm rest cs, matchToks (.param ty nm :: rest) cs =
        matchToks (.param "str" nm :: rest) cs) ∧
      uuid_route.matchPath "/items/abc" = some [("id", Value.str "abc")] ∧
      Router.add_route ⟨[], []⟩ "/items/<uuid:id>" 11 none "uuid_item" =
        .ok ⟨[uuid_route], [("uuid_item", uuid_route)]⟩ := by
  have he : typeConverters ty = typeConverters "str" := by
    simp [typeConverters, h1, h2, h3]
  refine ⟨he, ?_, by decide, rfl⟩
  intro nm rest cs
  simp only [matchToks]
  rw [he]

/-- Witness for C10 at the concrete type name `uuid`. -/
theorem unknown_type_fallback_witness :
    typeConverters "uuid" = typeConverters "str" ∧
      uuid_route.matchPath "/items/abc" = some [("id", Value.str "abc")] :=
  ⟨(unknown_type_fallback "uuid" (by decide) (by decide) (by decide)).1,
    (unknown_type_fallback "uuid" (by decide) (by decide) (by decide)).2.2.1⟩

/-! ## Reverse routing (C4) -/

/-- Every decimal digit character is a digit. -/
theorem digitChar_isDigit (d : Nat) : (digitChar d).isDigit = true := by
  have h : d % 10 < 10 := Nat.mod_lt _ (by norm_num)
  show (Char.ofNat (48 + d % 10)).isDigit = true
  revert h
  generalize d % 10 = m
  intro h
  interval_cases m <;> decide

/-- The code of a decimal digit character. -/
theorem digitChar_toNat (d : Nat) (h : d < 10) : (digitChar d).toNat = 48 + d := by
  interval_cases d <;> decide

/-- Reading one appended digit. -/
theorem digitsToNat_append_one (xs : List Char) (c : Char) :
    digitsToNat (xs ++ [c]) = 10 * digitsToNat xs + (c.toNat - 48) := by
  simp [digitsToNat, List.foldl_append]

/-- With enough budget, `str(n)` is a non-empty digit string that reads
back as `n`. -/
theorem natReprAux_spec (fuel : Nat) :
    ∀ n, n < fuel →
      natReprAux fuel n ≠ [] ∧ (natReprAux fuel n).all Char.isDigit = true ∧
        digitsToNat (natReprAux fuel n) = n := by
  induction fuel with
  | zero => intro n h; omega
  | succ f ih =>
    intro n h
    by_cases h10 : n < 10
    · simp only [natReprAux, if_pos h10]
      interval_cases n <;> refine ⟨by decide, by decide, by decide⟩
    · simp only [natReprAux, if_neg h10]
      have hdiv : n / 10 < f := by omega
      obtain ⟨ihne, ihall, ihval⟩ := ih (n / 10) hdiv
      refine ⟨by simp, ?_, ?_⟩
      · simp [List.all_append, ihall, digitChar_isDigit]
      · rw [digitsToNat_append_one, ihval,
          digitChar_toNat (n % 10) (Nat.mod_lt _ (by norm_num))]
        omega

/-- Python `str(n)` is a non-empty digit string that reads back as `n`. -/
theorem natReprL_spec (n : Nat) :
    natReprL n ≠ [] ∧ (natReprL n).all Char.isDigit = true ∧
      digitsToNat (natReprL n) = n :=
  natReprAux_spec (n + 1) n (by omega)

/-- A digit character is not `<`. -/
theorem digitChar_ne_lt (c : Char) (h : c.isDigit = true) : c ≠ '<' := by
  intro he
  rw [he] at h
  exact absurd h (by decide)

/-- Python `str.replace` with a needle starting at `<` leaves a `<`-free string
unchanged. -/
theorem strRepAux_no_lt (k v : List Char) (fuel : Nat) :
    ∀ cs : List Char, '<' ∉ cs → strRepAux ('<' :: k) v fuel cs = cs := by
  induction fuel with
  | zero => intro cs h; rfl
  | succ f ih =>
    intro cs h
    cases cs with
    | nil => rfl
    | cons c rest =>
      have hc : c ≠ '<' := fun he => h (by simp [he])
      have hb : ('<' == c) = false := beq_eq_false_iff_ne.mpr (Ne.symm hc)
      have hp : ('<' :: k).isPrefixOf (c :: rest) = false := by
        simp [List.isPrefixOf, hb]
      simp only [strRepAux, hp, Bool.false_eq_true, if_false]
      rw [ih rest fun hm => h (List.mem_cons_of_mem c hm)]

/-- Substituting the `id` value into the `/items/<int:id>` pattern. -/
theorem subParamAux_items (v : List Char) :
    subParamAux ['i', 'd'] v 15
      ['/', 'i', 't', 'e', 'm', 's', '/', '<', 'i', 'n', 't', ':', 'i', 'd', '>'] =
      ['/', 'i', 't', 'e', 'm', 's', '/'] ++ v := by
  show '/' :: 'i' :: 't' :: 'e' :: 'm' :: 's' :: '/' :: (v ++ []) =
    '/' :: 'i' :: 't' :: 'e' :: 'm' :: 's' :: '/' :: v
  rw [List.append_nil]

/-- The decimal text of a value never contains `<`. -/
theorem no_lt_in_items_digits (n : Nat) :
    '<' ∉ ['/', 'i', 't', 'e', 'm', 's', '/'] ++ natReprL n := by
  intro hm
  rcases List.mem_append.mp hm with h1 | h2
  · exact absurd h1 (by decide)
  · have hall := List.all_eq_true.mp (natReprL_spec n).2.1 '<' h2
    exact absurd hall (by decide)

/-- Counterexample to C4 as stated: `url_for` substitutes `str(value)`
without validating it against the placeholder pattern, so a `str` value
containing a slash produces a path the route's matcher rejects. -/
theorem url_for_mismatch_counterexample :
    userRouter.url_for "user" [("name", Value.str "a/b")] = .ok "/u/a/b" ∧
      user_route.matchPath "/u/a/b" = none := ⟨rfl, rfl⟩

/-- C4 (amended): for the `item_detail` route, reverse routing with an
integer value round-trips through matching for every `n`; `url_for`
fails on an unknown endpoint and on a missing required placeholder
value.  (Round-tripping needs the substituted text to satisfy the
placeholder pattern, which decimal digits do.) -/
theorem url_for_round_trip (n : Nat) :
    itemsRouter.url_for "item_detail" [("id", Value.int n)] =
        .ok ("/items/" ++ String.mk (natReprL n)) ∧
      item_detail.matchPath ("/items/" ++ String.mk (natReprL n)) =
        some [("id", Value.int n)] ∧
      itemsRouter.url_for "nope" [("id", Value.int n)] =
        .error .unknownEndpoint ∧
      itemsRouter.url_for "item_detail" [] = .error .missingParam := by
  refine ⟨?_, ?_, rfl, rfl⟩
  · have step1 : itemsRouter.url_for "item_detail" [("id", Value.int n)] =
        Except.ok (String.mk (replaceLoop [("id", Value.int n)]
          (subParamAux ['i', 'd'] (natReprL n) 15
            ['/', 'i', 't', 'e', 'm', 's', '/', '<', 'i', 'n', 't', ':',
              'i', 'd', '>']))) := rfl
    rw [step1, subParamAux_items]
    have step2 : replaceLoop [("id", Value.int n)]
        (['/', 'i', 't', 'e', 'm', 's', '/'] ++ natReprL n) =
        strRepAux ('<' :: (['i', 'd'] ++ ['>'])) (natReprL n)
          ((['/', 'i', 't', 'e', 'm', 's', '/'] ++ natReprL n).length)
          (['/', 'i', 't', 'e', 'm', 's', '/'] ++ natReprL n) := rfl
    rw [step2, strRepAux_no_lt (['i', 'd'] ++ ['>']) (natReprL n) _ _
      (no_lt_in_items_digits n)]
    rfl
  · rw [item_match_reduce,
      show (String.mk (natReprL n)).data = natReprL n from rfl, matchToks_int]
    obtain ⟨h1, h2, h3⟩ := natReprL_spec n
    rw [if_pos ⟨h1, h2⟩, h3]

/-! ## Status serialization (C5) -/

/-- Counterexample to C5 as stated: the serialized start message of a
response with the unlisted status 499 carries the bare integer 499; no
header value contains the text `Unknown Status`, the lookup table has no
entry for 499, and no entry of the table carries an `Unknown Status`
phrase at all. -/
theorem status_line_counterexample :
    (responseCall (mkResponse "hi" 499 [] none "text/plain")).1.status = 499 ∧
      List.lookup 499 HTTP_STATUS_CODES = none ∧
      (∀ p ∈ HTTP_STATUS_CODES, p.2 ≠ "Unknown Status") ∧
      ((responseCall (mkResponse "hi" 499 [] none "text/plain")).1.headers.all
        fun p => !hasSub "Unknown Status".data p.2.data) = true :=
  ⟨rfl, by decide, by decide, by decide⟩

/-- C5 (amended): serialization transmits the integer status code
unchanged in the start message and renders no reason-phrase status line;
the `HTTP_STATUS_CODES` table does map 201 to `Created` (and lacks 499),
but is never consulted. -/
theorem status_integer_passthrough (body : String) (sc : Nat)
    (headers : List (String × String)) (ct : Option String) (dct : String) :
    (responseCall (mkResponse body sc headers ct dct)).1.status = sc ∧
      List.lookup 201 HTTP_STATUS_CODES = some "Created" ∧
      List.lookup 499 HTTP_STATUS_CODES = none :=
  ⟨rfl, by decide, by decide⟩

/-! ## Request body protocol (C7) and JSON leniency (C8) -/

/-- C7: after `stream()` has begun on a fresh request, `body()` fails
with the usage error; and once `body()` has succeeded, calling it again
returns the identical cached bytes in the identical state, without
touching the stream. -/
theorem body_stream_discipline :
    (∀ (rq : ARequest) (chunks : List (List Nat)) (st2 : RState),
      streamOp rq initState = .ok (chunks, st2) →
      bodyOp rq st2 = .error .bodyAfterStream) ∧
    (∀ (rq : ARequest) (st : RState) (b : List Nat) (st2 : RState),
      bodyOp rq st = .ok (b, st2) → bodyOp rq st2 = .ok (b, st2)) := by
  constructor
  · intro rq chunks st2 h
    simp [streamOp, initState] at h
    rw [← h.2]
    rfl
  · intro rq st b st2 h
    rcases st with ⟨bc, jc, sc⟩
    cases bc with
    | some b0 =>
      simp [bodyOp] at h
      rw [← h.2, ← h.1]
      rfl
    | none =>
      cases sc with
      | true => simp [bodyOp, streamOp] at h
      | false =>
        simp [bodyOp, streamOp] at h
        rw [← h.2, ← h.1]
        rfl

/-- Witness for C7 on a concrete two-byte request. -/
theorem body_stream_discipline_witness :
    bodyOp req0 ⟨none, none, true⟩ = .error .bodyAfterStream ∧
      bodyOp req0 ⟨some [104, 105], none, true⟩ =
        .ok ([104, 105], ⟨some [104, 105], none, true⟩) :=
  ⟨body_stream_discipline.1 req0 [[104, 105]] ⟨none, none, true⟩ rfl,
    body_stream_discipline.2 req0 initState [104, 105]
      ⟨some [104, 105], none, true⟩ rfl⟩

/-- C8: with a JSON content type, a body the parser rejects (and likewise
an empty body) makes `json()` return the empty object instead of
propagating the parse failure; a non-JSON content type returns the empty
object without reading the body. -/
theorem json_lenient_degrade (parse : List Nat → Option JVal) (rq : ARequest) :
    (hasSub "application/json".data
        (headerGet rq.headers "content-type" "").data = true →
      parse (streamChunks rq.messages).flatten = none →
      jsonOp parse rq initState =
        .ok (JVal.obj [],
          ⟨some (streamChunks rq.messages).flatten, some (JVal.obj []), true⟩)) ∧
    ((streamChunks rq.messages).flatten = [] →
      hasSub "application/json".data
        (headerGet rq.headers "content-type" "").data = true →
      jsonOp parse rq initState =
        .ok (JVal.obj [], ⟨some [], some (JVal.obj []), true⟩)) ∧
    (hasSub "application/json".data
        (headerGet rq.headers "content-type" "").data = false →
      jsonOp parse rq initState =
        .ok (JVal.obj [], ⟨none, some (JVal.obj []), false⟩)) := by
  refine ⟨?_, ?_, ?_⟩
  · intro hct hp
    by_cases hb : (streamChunks rq.messages).flatten = [] <;>
      simp [jsonOp, initState, hct, bodyOp, streamOp, hb, hp]
  · intro hb hct
    simp [jsonOp, initState, hct, bodyOp, streamOp, hb]
  · intro hct
    simp [jsonOp, initState, hct]

/-- Witness for C8: a malformed JSON body yields the empty object, and a
plain-text content type yields the empty object. -/
theorem json_lenient_degrade_witness :
    jsonOp (fun _ => none) reqJson initState =
        .ok (JVal.obj [], ⟨some [123], some (JVal.obj []), true⟩) ∧
      jsonOp (fun _ => none) reqPlain initState =
        .ok (JVal.obj [], ⟨none, some (JVal.obj []), false⟩) :=
  ⟨(json_lenient_degrade (fun _ => none) reqJson).1 rfl rfl,
    (json_lenient_degrade (fun _ => none) reqPlain).2.2 rfl⟩

/-! ## HTML script injection (C6) -/

/-- A non-empty needle is no prefix of any suffix of a haystack in which
`lastFind` finds nothing. -/
theorem lastFind_none_misses (needle : List Char) (hne : needle ≠ []) :
    ∀ hay : List Char, lastFind needle hay = none →
      ∀ j, needle.isPrefixOf (hay.drop j) = false := by
  intro hay
  induction hay with
  | nil =>
    intro _ j
    cases needle with
    | nil => exact absurd rfl hne
    | cons a as => simp [List.isPrefixOf]
  | cons c rest ih =>
    intro h j
    simp only [lastFind] at h
    cases hrec : lastFind needle rest with
    | some j0 => rw [hrec] at h; exact absurd h (by simp)
    | none =>
      rw [hrec] at h
      have hnp : needle.isPrefixOf (c :: rest) = false := by
        by_cases hp : needle.isPrefixOf (c :: rest) = true
        · rw [if_pos hp] at h; exact absurd h (by simp)
        · simp only [Bool.not_eq_true] at hp
          exact hp
      cases j with
      | zero => simpa using hnp
      | succ j0 => simpa using ih hrec j0

/-- Where `lastFind` points, the needle occurs, and it occurs nowhere
later. -/
theorem lastFind_some_spec (needle : List Char) (hne : needle ≠ []) :
    ∀ (hay : List Char) (k : Nat), lastFind needle hay = some k →
      needle.isPrefixOf (hay.drop k) = true ∧
        ∀ j, k < j → needle.isPrefixOf (hay.drop j) = false := by
  intro hay
  induction hay with
  | nil =>
    intro k h
    cases needle with
    | nil => exact absurd rfl hne
    | cons a as => simp [lastFind, List.isEmpty] at h
  | cons c rest ih =>
    intro k h
    simp only [lastFind] at h
    cases hrec : lastFind needle rest with
    | some j0 =>
      rw [hrec] at h
      have hk : k = j0 + 1 := by
        injection h with h
        omega
      subst hk
      obtain ⟨hpre, hmax⟩ := ih j0 hrec
      refine ⟨by simpa using hpre, ?_⟩
      intro j hj
      obtain ⟨j1, rfl⟩ : ∃ j1, j = j1 + 1 := ⟨j - 1, by omega⟩
      simpa using hmax j1 (by omega)
    | none =>
      rw [hrec] at h
      by_cases hp : needle.isPrefixOf (c :: rest) = true
      · rw [if_pos hp] at h
        have hk : k = 0 := by
          injection h with h
          omega
        subst hk
        refine ⟨by simpa using hp, ?_⟩
        intro j hj
        obtain ⟨j1, rfl⟩ : ∃ j1, j = j1 + 1 := ⟨j - 1, by omega⟩
        simpa using lastFind_none_misses needle hne rest hrec j1
      · rw [if_neg hp] at h
        exact absurd h (by simp)

/-- A haystack in which `lastFind` finds nothing does not contain the
needle. -/
theorem hasSub_false_of_lastFind_none (needle : List Char) (hne : needle ≠ []) :
    ∀ hay : List Char, lastFind needle hay = none → hasSub needle hay = false := by
  intro hay
  induction hay with
  | nil =>
    intro _
    cases needle with
    | nil => exact absurd rfl hne
    | cons a as => rfl
  | cons c rest ih =>
    intro h
    simp only [lastFind] at h
    cases hrec : lastFind needle rest with
    | some j0 => rw [hrec] at h; exact absurd h (by simp)
    | none =>
      rw [hrec] at h
      have hnp : needle.isPrefixOf (c :: rest) = false := by
        by_cases hp : needle.isPrefixOf (c :: rest) = true
        · rw [if_pos hp] at h; exact absurd h (by simp)
        · simp only [Bool.not_eq_true] at hp
          exact hp
      simp [hasSub, hnp, ih hrec]

/-- Counterexample to C6 as stated: a body that contains `</html>` and a
non-empty script, but no `</head>`, is left unmodified — injection is
not implied by the two stated conditions alone. -/
theorem html_injection_counterexample :
    htmlTransform "x" "<html></html>" = "<html></html>" ∧
      hasSub "</html>".data ("<html></html>".data.map Char.toLower) = true ∧
      ("x" : String) ≠ "" := ⟨rfl, rfl, by decide⟩

/-- C6 (amended): the script tag is spliced in exactly once, immediately
before the last case-insensitive occurrence of `</head>`, precisely when
the lower-cased body contains `</html>`, the startup-loaded script is
non-empty, and the body contains `</head>`; in every other case
(no `</html>`, empty script, or no `</head>`) the body is returned
unmodified. -/
theorem html_injection_characterization (script body : String) :
    (hasSub "</html>".data (body.data.map Char.toLower) = false →
      htmlTransform script body = body) ∧
    (script = "" → htmlTransform script body = body) ∧
    (∀ k, hasSub "</html>".data (body.data.map Char.toLower) = true →
      script ≠ "" →
      lastFind "</head>".data (body.data.map Char.toLower) = some k →
      htmlTransform script body =
          String.mk (body.data.take k
            ++ ("<script>" ++ script ++ "</script>").data ++ body.data.drop k) ∧
        "</head>".data.isPrefixOf ((body.data.map Char.toLower).drop k) = true ∧
        ∀ j, k < j →
          "</head>".data.isPrefixOf ((body.data.map Char.toLower).drop j) = false) ∧
    (hasSub "</html>".data (body.data.map Char.toLower) = true →
      script ≠ "" →
      lastFind "</head>".data (body.data.map Char.toLower) = none →
      htmlTransform script body = body ∧
        hasSub "</head>".data (body.data.map Char.toLower) = false) := by
  refine ⟨?_, ?_, ?_, ?_⟩
  · intro h
    simp [htmlTransform, h]
  · intro h
    simp [htmlTransform, h]
  · intro k hhtml hscript hfind
    refine ⟨?_, ?_⟩
    · simp [htmlTransform, hhtml, hscript, hfind]
    · exact lastFind_some_spec "</head>".data (by decide) _ k hfind
  · intro hhtml hscript hfind
    refine ⟨?_, ?_⟩
    · simp [htmlTransform, hhtml, hscript, hfind]
    · exact hasSub_false_of_lastFind_none "</head>".data (by decide) _ hfind

/-- Witness for C6 on a complete document: the script tag lands directly
before `</head>` (position 12). -/
theorem html_injection_characterization_witness :
    htmlTransform "S" "<html><head></head></html>" =
      String.mk ("<html><head></head></html>".data.take 12
        ++ ("<script>" ++ "S" ++ "</script>").data
        ++ "<html><head></head></html>".data.drop 12) :=
  ((html_injection_characterization "S" "<html><head></head></html>").2.2.1
    12 rfl (by decide) rfl).1

/-! ## Cookie headers (C9) -/

/-- Assigning a fresh key to the headers dict appends it. -/
theorem dictSet_of_none (hs : List (String × String)) (k v : String)
    (h : dictGet? hs k = none) : dictSet hs k v = hs ++ [(k, v)] := by
  induction hs with
  | nil => rfl
  | cons a rest ih =>
    obtain ⟨k0, v0⟩ := a
    by_cases hk : k0 = k
    · simp [dictGet?, hk] at h
    · simp only [dictGet?, if_neg hk] at h
      simp [dictSet, hk, ih h]

/-- Reading back a key appended to a dict without it. -/
theorem dictGet?_append_right (hs : List (String × String)) (k v : String)
    (h : dictGet? hs k = none) : dictGet? (hs ++ [(k, v)]) k = some v := by
  induction hs with
  | nil => simp [dictGet?]
  | cons a rest ih =>
    obtain ⟨k0, v0⟩ := a
    by_cases hk : k0 = k
    · simp [dictGet?, hk] at h
    · simp only [dictGet?, if_neg hk] at h
      simp [dictGet?, hk, ih h]

/-- Re-assigning a key appended at the end updates it in place. -/
theorem dictSet_append_update (hs : List (String × String)) (k v w : String)
    (h : dictGet? hs k = none) :
    dictSet (hs ++ [(k, v)]) k w = hs ++ [(k, w)] := by
  induction hs with
  | nil => simp [dictSet]
  | cons a rest ih =>
    obtain ⟨k0, v0⟩ := a
    by_cases hk : k0 = k
    · simp [dictGet?, hk] at h
    · simp only [dictGet?, if_neg hk] at h
      simp [dictSet, hk, ih h]

/-- A present key survives extension on the right. -/
theorem dictGet?_append_left (hs t : List (String × String)) (k v : String)
    (h : dictGet? hs k = some v) : dictGet? (hs ++ t) k = some v := by
  induction hs with
  | nil => simp [dictGet?] at h
  | cons a rest ih =>
    obtain ⟨k0, v0⟩ := a
    by_cases hk : k0 = k
    · simp only [dictGet?, if_pos hk] at h
      simp [dictGet?, hk, h]
    · simp only [dictGet?, if_neg hk] at h
      simp [dictGet?, hk, ih h]

/-- A key a dict lacks occurs zero times. -/
theorem countKey_zero (hs : List (String × String)) (k : String)
    (h : dictGet? hs k = none) : countKey hs k = 0 := by
  induction hs with
  | nil => rfl
  | cons a rest ih =>
    obtain ⟨k0, v0⟩ := a
    by_cases hk : k0 = k
    · simp [dictGet?, hk] at h
    · simp only [dictGet?, if_neg hk] at h
      simp [countKey, List.filter_cons, hk] at ih ⊢
      exact ih h

/-- Appending an entry with the key adds one occurrence. -/
theorem countKey_append_same (hs : List (String × String)) (k v : String) :
    countKey (hs ++ [(k, v)]) k = countKey hs k + 1 := by
  simp [countKey, List.filter_append]

/-- Appending an entry with a different key changes nothing. -/
theorem countKey_append_ne (hs : List (String × String)) (k1 v k : String)
    (h : k1 ≠ k) : countKey (hs ++ [(k1, v)]) k = countKey hs k := by
  simp [countKey, List.filter_append, h]

/-- Counterexample to C9 as stated: two cookies with distinct names are
emitted as a single `Set-Cookie` header entry whose value joins the two
cookie strings with a newline, not as two repeated entries. -/
theorem set_cookie_repeated_counterexample :
    countKey (responseCall ((respBase.set_cookie "a" "1" none none (some "/")
        none false false (some "Lax")).set_cookie "b" "2" none none (some "/")
        none false false (some "Lax"))).1.headers "Set-Cookie" = 1 ∧
      dictGet? (responseCall ((respBase.set_cookie "a" "1" none none (some "/")
          none false false (some "Lax")).set_cookie "b" "2" none none (some "/")
          none false false (some "Lax"))).1.headers "Set-Cookie" =
        some "a=1; Path=/; SameSite=Lax\nb=2; Path=/; SameSite=Lax" :=
  ⟨rfl, rfl⟩


/-- Unfolding of `set_cookie` at the header level. -/
theorem set_cookie_headers (r : Response) (key value : String)
    (ma : Option Int) (ex pa dm : Option String) (se ho : Bool)
    (ss : Option String) :
    (r.set_cookie key value ma ex pa dm se ho ss).headers =
      (match dictGet? r.headers "Set-Cookie" with
       | some old =>
         dictSet r.headers "Set-Cookie"
           (old ++ "\n" ++ cookieVal key value ma ex pa dm se ho ss)
       | none =>
         dictSet r.headers "Set-Cookie"
           (cookieVal key value ma ex pa dm se ho ss)) := rfl

/-- C9 (amended): starting from a response without a `Set-Cookie` entry,
two `set_cookie` calls leave exactly one `Set-Cookie` entry in the
serialized header list, whose value is the first cookie string, a
newline, and the second cookie string — nothing is overwritten, but the
cookies accumulate inside one header value rather than as repeated
entries. -/
theorem set_cookie_accumulation (r : Response)
    (k1 v1 : String) (ma1 : Option Int) (ex1 pa1 do1 : Option String)
    (se1 ho1 : Bool) (ss1 : Option String)
    (k2 v2 : String) (ma2 : Option Int) (ex2 pa2 do2 : Option String)
    (se2 ho2 : Bool) (ss2 : Option String)
    (h : dictGet? r.headers "Set-Cookie" = none) :
    dictGet? (responseCall ((r.set_cookie k1 v1 ma1 ex1 pa1 do1 se1 ho1 ss1).set_cookie
          k2 v2 ma2 ex2 pa2 do2 se2 ho2 ss2)).1.headers "Set-Cookie" =
        some (cookieVal k1 v1 ma1 ex1 pa1 do1 se1 ho1 ss1 ++ "\n" ++
          cookieVal k2 v2 ma2 ex2 pa2 do2 se2 ho2 ss2) ∧
      countKey (responseCall ((r.set_cookie k1 v1 ma1 ex1 pa1 do1 se1 ho1 ss1).set_cookie
          k2 v2 ma2 ex2 pa2 do2 se2 ho2 ss2)).1.headers "Set-Cookie" = 1 := by
  have h1 : (r.set_cookie k1 v1 ma1 ex1 pa1 do1 se1 ho1 ss1).headers =
      r.headers ++ [("Set-Cookie", cookieVal k1 v1 ma1 ex1 pa1 do1 se1 ho1 ss1)] := by
    rw [set_cookie_headers, h]
    exact dictSet_of_none _ _ _ h
  have hg1 : dictGet? (r.set_cookie k1 v1 ma1 ex1 pa1 do1 se1 ho1 ss1).headers
      "Set-Cookie" = some (cookieVal k1 v1 ma1 ex1 pa1 do1 se1 ho1 ss1) := by
    rw [h1]
    exact dictGet?_append_right _ _ _ h
  have h2 : ((r.set_cookie k1 v1 ma1 ex1 pa1 do1 se1 ho1 ss1).set_cookie
      k2 v2 ma2 ex2 pa2 do2 se2 ho2 ss2).headers =
      r.headers ++ [("Set-Cookie", cookieVal k1 v1 ma1 ex1 pa1 do1 se1 ho1 ss1
        ++ "\n" ++ cookieVal k2 v2 ma2 ex2 pa2 do2 se2 ho2 ss2)] := by
    rw [set_cookie_headers, hg1, h1]
    exact dictSet_append_update _ _ _ _ h
  have hgot : dictGet? ((r.set_cookie k1 v1 ma1 ex1 pa1 do1 se1 ho1 ss1).set_cookie
      k2 v2 ma2 ex2 pa2 do2 se2 ho2 ss2).headers "Set-Cookie" =
      some (cookieVal k1 v1 ma1 ex1 pa1 do1 se1 ho1 ss1 ++ "\n" ++
        cookieVal k2 v2 ma2 ex2 pa2 do2 se2 ho2 ss2) := by
    rw [h2]
    exact dictGet?_append_right _ _ _ h
  have hcnt : countKey ((r.set_cookie k1 v1 ma1 ex1 pa1 do1 se1 ho1 ss1).set_cookie
      k2 v2 ma2 ex2 pa2 do2 se2 ho2 ss2).headers "Set-Cookie" = 1 := by
    rw [h2, countKey_append_same, countKey_zero _ _ h]
  set rb := (r.set_cookie k1 v1 ma1 ex1 pa1 do1 se1 ho1 ss1).set_cookie
      k2 v2 ma2 ex2 pa2 do2 se2 ho2 ss2 with hrb
  by_cases hcl : dictContains rb.headers "content-length" = true
  · have hR : (responseCall rb).1.headers = rb.headers := by
      simp [responseCall, hcl]
    rw [hR]
    exact ⟨hgot, hcnt⟩
  · have hcl2 : dictContains rb.headers "content-length" = false := by
      simpa using hcl
    have hnone : dictGet? rb.headers "content-length" = none := by
      cases hopt : dictGet? rb.headers "content-length" with
      | none => rfl
      | some v =>
        exfalso
        simp [dictContains, hopt] at hcl2
    have hR : (responseCall rb).1.headers =
        rb.headers ++ [("content-length",
          String.mk (natReprL rb.body.utf8ByteSize))] := by
      simp only [responseCall, hcl2, Bool.false_eq_true, if_false]
      exact dictSet_of_none _ _ _ hnone
    rw [hR]
    constructor
    · exact dictGet?_append_left _ _ _ _ hgot
    · rw [countKey_append_ne _ _ _ _ (by decide)]
      exact hcnt

/-- Witness for C9 on two concrete cookies. -/
theorem set_cookie_accumulation_witness :
    dictGet? (responseCall ((respBase.set_cookie "c" "3" none none (some "/")
          none false false (some "Lax")).set_cookie "d" "4" none none (some "/")
          none false false (some "Lax"))).1.headers "Set-Cookie" =
        some (cookieVal "c" "3" none none (some "/") none false false (some "Lax")
          ++ "\n" ++
          cookieVal "d" "4" none none (some "/") none false false (some "Lax")) ∧
      countKey (responseCall ((respBase.set_cookie "c" "3" none none (some "/")
          none false false (some "Lax")).set_cookie "d" "4" none none (some "/")
          none false false (some "Lax"))).1.headers "Set-Cookie" = 1 :=
  set_cookie_accumulation respBase "c" "3" none none (some "/") none false false
    (some "Lax") "d" "4" none none (some "/") none false false (some "Lax") rfl
